import Mathlib

/-!
Verification of the SAEDashboard Neuronpedia batch-generation pipeline.

Shallow embedding of `sae_dashboard/neuronpedia/neuronpedia_runner.py`
(class `NeuronpediaRunner`): token-corpus construction with content-addressed
deduplication (`generate_tokens` / `hash_tensor`), prefix/suffix sequence
augmentation (`add_prefix_suffix_to_tokens`), feature-batch planning
(`get_alive_features` / `get_feature_batches`, backed by `np.array_split`),
the resumable batch-execution loop of `run`, eager configuration validation
in `__init__`, and vocabulary normalization (`get_vocab_dict`).

Token sequences are `List Nat` (token ids); a corpus (2-D tensor of tokens)
is a `List (List Nat)` of rows.
-/

namespace SAEDashboard

/-! ## TokenCorpusBuilder: `generate_tokens` and `hash_tensor` -/

/-- Model of `hash_tensor(tensor)`: it returns `tuple(tensor.cpu().numpy().flatten().tolist())`:
for a 1-D token sequence this is exactly its content, position by position. -/
def hash_tensor (seq : List Nat) : List Nat :=
  seq

/-- State of the collection loop in `generate_tokens`:
`(all_tokens_list, unique_sequences)`. -/
abbrev GenState := List (List Nat) × List (List Nat)

/-- One step of the inner `for seq in batch_tokens` loop of `generate_tokens`:
keep `seq` only if its content hash has not been seen, recording the hash. -/
def keepStep (st : GenState) (seq : List Nat) : GenState :=
  if hash_tensor seq ∈ st.2 then st
  else (st.1 ++ [seq], st.2 ++ [hash_tensor seq])

/-- The inner loop of `generate_tokens` over one pulled batch. -/
def processBatch (st : GenState) (batch : List (List Nat)) : GenState :=
  batch.foldl keepStep st

/-- The outer `for _ in pbar` loop of `generate_tokens`: process one pulled
batch, then break early once `len(all_tokens_list) >= n_prompts`. -/
def genLoop (nPrompts : Nat) : List (List (List Nat)) → GenState → GenState
  | [], st => st
  | b :: bs, st =>
    let st2 := processBatch st b
    if nPrompts ≤ st2.1.length then st2 else genLoop nPrompts bs st2

/-- The batches `generate_tokens` pulls from the activations store: the loop
header is `range(n_prompts // activations_store.store_batch_size_prompts)`,
and with `shuffle_tokens` each pulled batch is row-permuted by
`torch.randperm` (modelled by the oracle `permB`). -/
def pulledBatches (permB : Nat → List (List Nat) → List (List Nat))
    (shuffle : Bool) (src : Nat → List (List Nat))
    (storeBatchSize nPrompts : Nat) : List (List (List Nat)) :=
  (List.range (nPrompts / storeBatchSize)).map
    (fun i => if shuffle then permB i (src i) else src i)

/-- The `all_tokens_list` contents when the collection loop of
`generate_tokens` finishes (at the point of the `torch.cat` call). -/
def keptTokens (permB : Nat → List (List Nat) → List (List Nat))
    (shuffle : Bool) (src : Nat → List (List Nat))
    (storeBatchSize nPrompts : Nat) : List (List Nat) :=
  (genLoop nPrompts (pulledBatches permB shuffle src storeBatchSize nPrompts) ([], [])).1

/-- Model of `NeuronpediaRunner.generate_tokens`: compute the pulled-batch
count `n_prompts // store_batch_size_prompts` (Python raises
`ZeroDivisionError` when the store batch size is 0), pull the batches with
content-hash dedup and early exit once enough unique sequences are kept, then
`torch.cat(all_tokens_list, dim=0)` — which raises `RuntimeError` when no
sequence was kept, in particular when zero batches were pulled — truncate
with `[:n_prompts]`, and (when `shuffle_tokens`) apply a final
`torch.randperm` permutation (modelled by the oracle `permF`). The raised
exceptions become `Except.error`. -/
def generate_tokens (permB : Nat → List (List Nat) → List (List Nat))
    (permF : List (List Nat) → List (List Nat)) (shuffle : Bool)
    (src : Nat → List (List Nat)) (storeBatchSize nPrompts : Nat) :
    Except String (List (List Nat)) :=
  if storeBatchSize = 0 then
    Except.error "ZeroDivisionError: integer division or modulo by zero"
  else if (keptTokens permB shuffle src storeBatchSize nPrompts).isEmpty then
    Except.error "RuntimeError: torch.cat(): expected a non-empty list of Tensors"
  else
    Except.ok
      (if shuffle then
        permF ((keptTokens permB shuffle src storeBatchSize nPrompts).take nPrompts)
      else (keptTokens permB shuffle src storeBatchSize nPrompts).take nPrompts)

/-- Number of distinct sequences the dedup loop keeps from a batch stream
when it is run to completion (no early exit). -/
def uniqueCount (bs : List (List (List Nat))) : Nat :=
  (bs.foldl processBatch ([], [])).1.length

/-! ## FeatureBatchPlanner: `get_alive_features` and `get_feature_batches` -/

/-- Model of `np.ceil(len(feature_idx) / n_features_at_a_time).astype(int)` on naturals. -/
def npCeilDiv (a b : Nat) : Nat :=
  (a + b - 1) / b

/-- Cut a list into consecutive sections of the given sizes
(`numpy` splits at the cumulative sums of the section sizes). -/
def splitSizes {α : Type} : List α → List Nat → List (List α)
  | _, [] => []
  | l, s :: ss => l.take s :: splitSizes (l.drop s) ss

/-- Section sizes used by `np.array_split(ary, n)`: with `q, r = divmod(len, n)`,
`r` sections of size `q + 1` followed by `n - r` sections of size `q`. -/
def sectionSizes (total sections : Nat) : List Nat :=
  List.replicate (total % sections) (total / sections + 1) ++
    List.replicate (sections - total % sections) (total / sections)

/-- Model of `np.array_split(l, sections)`. -/
def array_split {α : Type} (l : List α) (sections : Nat) : List (List α) :=
  splitSizes l (sectionSizes l.length sections)

/-- Model of `NeuronpediaRunner.get_alive_features`: sparsity filtering is disabled,
so the target feature indexes are always `list(range(d_sae))`. -/
def get_alive_features (dSae : Nat) : List Nat :=
  List.range dSae

/-- Model of `NeuronpediaRunner.get_feature_batches`: split the target feature indexes
with `np.array_split` into `ceil(n_features / n_features_at_a_time)` groups. -/
def get_feature_batches (dSae nFeaturesAtATime : Nat) : List (List Nat) :=
  array_split (get_alive_features dSae) (npCeilDiv dSae nFeaturesAtATime)

/-! ### Lemmas about `splitSizes` and `sectionSizes` -/

theorem splitSizes_length {α : Type} :
    ∀ (ss : List Nat) (l : List α), (splitSizes l ss).length = ss.length
  | [], _ => rfl
  | _ :: ss, l => by
    simp [splitSizes, splitSizes_length ss]

theorem splitSizes_map_length {α : Type} :
    ∀ (ss : List Nat) (l : List α), ss.sum ≤ l.length →
      (splitSizes l ss).map List.length = ss
  | [], _, _ => rfl
  | s :: ss, l, h => by
    have hs : s ≤ l.length := by
      have := List.sum_cons (a := s) (l := ss)
      omega
    have hrest : ss.sum ≤ (l.drop s).length := by
      rw [List.length_drop]
      have := List.sum_cons (a := s) (l := ss)
      omega
    simp [splitSizes, List.length_take, Nat.min_eq_left hs,
      splitSizes_map_length ss (l.drop s) hrest]

theorem splitSizes_flatten {α : Type} :
    ∀ (ss : List Nat) (l : List α), l.length ≤ ss.sum →
      (splitSizes l ss).flatten = l
  | [], l, h => by
    have : l = [] := List.eq_nil_of_length_eq_zero (by simpa using h)
    simp [splitSizes, this]
  | s :: ss, l, h => by
    have hrest : (l.drop s).length ≤ ss.sum := by
      rw [List.length_drop]
      have := List.sum_cons (a := s) (l := ss)
      omega
    simp [splitSizes, splitSizes_flatten ss (l.drop s) hrest]

theorem sectionSizes_sum (total sections : Nat) (hk : 0 < sections) :
    (sectionSizes total sections).sum = total := by
  have hmod : total % sections < sections := Nat.mod_lt _ hk
  have hdm : sections * (total / sections) + total % sections = total :=
    Nat.div_add_mod total sections
  simp only [sectionSizes, List.sum_append, List.sum_replicate, smul_eq_mul]
  set q := total / sections
  set r := total % sections
  have hsub : (sections - r) * q = sections * q - r * q :=
    Nat.sub_mul sections r q
  have hle : r * q ≤ sections * q := Nat.mul_le_mul_right q (Nat.le_of_lt hmod)
  calc r * (q + 1) + (sections - r) * q
      = r * q + r + (sections * q - r * q) := by rw [Nat.mul_succ, hsub]
    _ = sections * q + r := by omega
    _ = total := hdm

theorem sectionSizes_length (total sections : Nat) (hk : 0 < sections) :
    (sectionSizes total sections).length = sections := by
  have hmod : total % sections < sections := Nat.mod_lt _ hk
  simp only [sectionSizes, List.length_append, List.length_replicate]
  omega

theorem npCeilDiv_pos (a b : Nat) (ha : 0 < a) (hb : 0 < b) :
    0 < npCeilDiv a b := by
  rw [npCeilDiv]
  have h : 1 * b ≤ a + b - 1 := by omega
  exact (Nat.le_div_iff_mul_le hb).mpr h

/-! ### C4: the plan partitions `[0, n_features)` -/

/-- C4. For every `n_features > 0` and `n_features_at_a_time > 0`,
`get_feature_batches` returns exactly `ceil(n_features / n_features_at_a_time)`
groups whose concatenation, in plan order, is exactly the ascending sequence
`0, 1, ..., n_features - 1` (hence no duplicate and no missing index). -/
theorem get_feature_batches_partition (dSae nAtATime : Nat)
    (hL : 0 < dSae) (hn : 0 < nAtATime) :
    (get_feature_batches dSae nAtATime).length = npCeilDiv dSae nAtATime ∧
      (get_feature_batches dSae nAtATime).flatten = List.range dSae := by
  have hk : 0 < npCeilDiv dSae nAtATime := npCeilDiv_pos _ _ hL hn
  have hlen : (get_alive_features dSae).length = dSae := by
    simp [get_alive_features]
  constructor
  · rw [get_feature_batches, array_split, splitSizes_length, hlen,
      sectionSizes_length _ _ hk]
  · rw [get_feature_batches, array_split, hlen, splitSizes_flatten]
    · rfl
    · rw [sectionSizes_sum _ _ hk, hlen]

/-- Witness for C4 at `n_features = 10`, `n_features_at_a_time = 4`. -/
theorem get_feature_batches_partition_witness :
    (get_feature_batches 10 4).length = npCeilDiv 10 4 ∧
      (get_feature_batches 10 4).flatten = List.range 10 :=
  get_feature_batches_partition 10 4 (by decide) (by decide)

/-! ### C3: group sizes are balanced, not fixed-except-last -/

/-- C3, counterexample. For `n_features = 10`, `n_features_at_a_time = 4`
the plan is not `[[0,1,2,3],[4,5,6,7],[8,9]]`, and not every non-final group
has exactly 4 indices: `np.array_split` balances the group sizes, producing
`[[0,1,2,3],[4,5,6],[7,8,9]]`. -/
theorem get_feature_batches_10_4_counterexample :
    get_feature_batches 10 4 ≠ [[0, 1, 2, 3], [4, 5, 6, 7], [8, 9]] ∧
      ¬ (∀ g ∈ (get_feature_batches 10 4).dropLast, g.length = 4) := by
  decide

/-- C3, amended. For every `n_features > 0` and `n_features_at_a_time > 0`,
with `k = ceil(n_features / n_features_at_a_time)` groups, every group produced
by `get_feature_batches` has either `n_features / k + 1` or `n_features / k`
indices (the first `n_features mod k` groups are the longer ones); in
particular for `n_features = 10` and `n_features_at_a_time = 4` the plan is
`[[0,1,2,3],[4,5,6],[7,8,9]]`. -/
theorem get_feature_batches_balanced (dSae nAtATime : Nat)
    (hL : 0 < dSae) (hn : 0 < nAtATime) :
    ((get_feature_batches dSae nAtATime).map List.length =
        sectionSizes dSae (npCeilDiv dSae nAtATime) ∧
      ∀ g ∈ get_feature_batches dSae nAtATime,
        g.length = dSae / npCeilDiv dSae nAtATime + 1 ∨
          g.length = dSae / npCeilDiv dSae nAtATime) ∧
      get_feature_batches 10 4 = [[0, 1, 2, 3], [4, 5, 6], [7, 8, 9]] := by
  have hk : 0 < npCeilDiv dSae nAtATime := npCeilDiv_pos _ _ hL hn
  have hlen : (get_alive_features dSae).length = dSae := by
    simp [get_alive_features]
  have hmap : (get_feature_batches dSae nAtATime).map List.length =
      sectionSizes dSae (npCeilDiv dSae nAtATime) := by
    rw [get_feature_batches, array_split, hlen, splitSizes_map_length]
    rw [sectionSizes_sum _ _ hk, hlen]
  refine ⟨⟨hmap, ?_⟩, by decide⟩
  intro g hg
  have hmem : g.length ∈ sectionSizes dSae (npCeilDiv dSae nAtATime) := by
    rw [← hmap]
    exact List.mem_map_of_mem List.length hg
  rcases List.mem_append.mp hmem with h | h
  · exact Or.inl (List.eq_of_mem_replicate h)
  · exact Or.inr (List.eq_of_mem_replicate h)

/-- Witness for C3 (amended) at `n_features = 10`, `n_features_at_a_time = 4`. -/
theorem get_feature_batches_balanced_witness :
    (get_feature_batches 10 4).map List.length = sectionSizes 10 (npCeilDiv 10 4) :=
  (get_feature_batches_balanced 10 4 (by decide) (by decide)).1.1

/-! ### Lemmas about the dedup collection loop -/

theorem length_le_keepStep (st : GenState) (seq : List Nat) :
    st.1.length ≤ (keepStep st seq).1.length := by
  rw [keepStep]
  split
  · exact Nat.le_refl _
  · simp

theorem length_le_processBatch :
    ∀ (batch : List (List Nat)) (st : GenState),
      st.1.length ≤ (processBatch st batch).1.length
  | [], _ => Nat.le_refl _
  | seq :: batch, st =>
    Nat.le_trans (length_le_keepStep st seq)
      (length_le_processBatch batch (keepStep st seq))

theorem length_le_foldl_processBatch :
    ∀ (bs : List (List (List Nat))) (st : GenState),
      st.1.length ≤ (bs.foldl processBatch st).1.length
  | [], _ => Nat.le_refl _
  | b :: bs, st =>
    Nat.le_trans (length_le_processBatch b st)
      (length_le_foldl_processBatch bs (processBatch st b))

/-- Early exit does not change how many sequences survive the `[:n_prompts]`
truncation: up to `min n ·`, the loop with break agrees with the full fold. -/
theorem min_genLoop_length (n : Nat) :
    ∀ (bs : List (List (List Nat))) (st : GenState),
      min n (genLoop n bs st).1.length = min n (bs.foldl processBatch st).1.length
  | [], _ => rfl
  | b :: bs, st => by
    rw [genLoop, List.foldl_cons]
    split
    · rename_i h
      have h2 : n ≤ (bs.foldl processBatch (processBatch st b)).1.length :=
        Nat.le_trans h (length_le_foldl_processBatch bs _)
      rw [Nat.min_eq_left h, Nat.min_eq_left h2]
    · exact min_genLoop_length n bs (processBatch st b)

/-- The invariant maintained by the dedup loop: the kept sequences are
pairwise distinct and every kept sequence has its hash recorded as seen. -/
def GenInv (st : GenState) : Prop :=
  st.1.Nodup ∧ ∀ s ∈ st.1, hash_tensor s ∈ st.2

theorem genInv_keepStep (st : GenState) (seq : List Nat) (h : GenInv st) :
    GenInv (keepStep st seq) := by
  rw [keepStep]
  split
  · exact h
  · rename_i hnot
    constructor
    · have hseq : seq ∉ st.1 := fun hmem => hnot (h.2 seq hmem)
      simp [List.nodup_append, h.1, hseq]
    · intro s hs
      rcases List.mem_append.mp hs with hs | hs
      · exact List.mem_append.mpr (Or.inl (h.2 s hs))
      · simp only [List.mem_singleton] at hs
        subst hs
        exact List.mem_append.mpr (Or.inr (by simp [hash_tensor]))

theorem genInv_processBatch :
    ∀ (batch : List (List Nat)) (st : GenState), GenInv st →
      GenInv (processBatch st batch)
  | [], _, h => h
  | seq :: batch, st, h =>
    genInv_processBatch batch (keepStep st seq) (genInv_keepStep st seq h)

theorem genInv_genLoop (n : Nat) :
    ∀ (bs : List (List (List Nat))) (st : GenState), GenInv st →
      GenInv (genLoop n bs st)
  | [], _, h => h
  | b :: bs, st, h => by
    rw [genLoop]
    split
    · exact genInv_processBatch b st h
    · exact genInv_genLoop n bs (processBatch st b) (genInv_processBatch b st h)

/-! ### C1: size of the corpus returned by `generate_tokens` -/

/-- C1, counterexample. A streaming source whose second batch repeats the
first: with `n_prompts = 4` and `store_batch_size_prompts = 2` the loop pulls
exactly `4 // 2 = 2` batches, dedup keeps only 2 unique sequences, and
`generate_tokens` silently returns a corpus of 2 sequences — fewer than
`n_prompts_total` — without raising any insufficient-corpus error and without
pulling further batches. -/
def c1Src : Nat → List (List Nat)
  | 0 => [[0, 0], [1, 1]]
  | _ => [[1, 1], [0, 0]]

/-- Identity stand-in for the per-batch `torch.randperm` oracle. -/
def idPermB : Nat → List (List Nat) → List (List Nat) :=
  fun _ l => l

/-- Identity stand-in for the final `torch.randperm` oracle. -/
def idPermF : List (List Nat) → List (List Nat) :=
  fun l => l

/-- When `n_prompts = 0`, the loop header `range(0 // b)` pulls no batch. -/
theorem pulledBatches_zero (permB : Nat → List (List Nat) → List (List Nat))
    (shuffle : Bool) (src : Nat → List (List Nat)) (storeBatchSize : Nat) :
    pulledBatches permB shuffle src storeBatchSize 0 = [] := by
  simp [pulledBatches, Nat.zero_div]

/-- C1, counterexample theorem. `generate_tokens` returns a 2-sequence
corpus where 4 were requested: it neither reaches `n_prompts_total` sequences
nor fails with an insufficient-corpus error. -/
theorem generate_tokens_short_corpus :
    generate_tokens idPermB idPermF false c1Src 2 4 = Except.ok [[0, 0], [1, 1]] ∧
      ([[0, 0], [1, 1]] : List (List Nat)).length = 2 := by
  exact ⟨rfl, rfl⟩

/-- C1, amended. `generate_tokens` pulls at most
`n_prompts // store_batch_size_prompts` batches (stopping early once the
kept-unique count reaches `n_prompts`) and has no insufficient-corpus error
path. With a store batch size of 0 it crashes with a `ZeroDivisionError` at
the loop-count division; when no unique sequence at all is kept — in
particular when zero batches are pulled because
`n_prompts < store_batch_size_prompts` — it crashes with a `RuntimeError` at
`torch.cat`; in every other case it returns a corpus of exactly
`min n_prompts u` sequences, where `u` is the number of unique sequences
among the pulled batches: when the fixed batch budget is exhausted before
`n_prompts` unique sequences are collected, it silently returns the shorter
corpus. -/
theorem generate_tokens_length_eq (permB : Nat → List (List Nat) → List (List Nat))
    (permF : List (List Nat) → List (List Nat)) (shuffle : Bool)
    (src : Nat → List (List Nat)) (storeBatchSize nPrompts : Nat)
    (hF : ∀ l, (permF l).Perm l) :
    (storeBatchSize = 0 →
        generate_tokens permB permF shuffle src storeBatchSize nPrompts =
          Except.error "ZeroDivisionError: integer division or modulo by zero") ∧
      (0 < storeBatchSize →
        uniqueCount (pulledBatches permB shuffle src storeBatchSize nPrompts) = 0 →
        generate_tokens permB permF shuffle src storeBatchSize nPrompts =
          Except.error "RuntimeError: torch.cat(): expected a non-empty list of Tensors") ∧
      (0 < storeBatchSize →
        0 < uniqueCount (pulledBatches permB shuffle src storeBatchSize nPrompts) →
        ∃ ts, generate_tokens permB permF shuffle src storeBatchSize nPrompts =
            Except.ok ts ∧
          ts.length =
            min nPrompts
              (uniqueCount (pulledBatches permB shuffle src storeBatchSize nPrompts))) := by
  have hmin : min nPrompts (keptTokens permB shuffle src storeBatchSize nPrompts).length =
      min nPrompts (uniqueCount (pulledBatches permB shuffle src storeBatchSize nPrompts)) :=
    min_genLoop_length nPrompts
      (pulledBatches permB shuffle src storeBatchSize nPrompts) ([], [])
  refine ⟨?_, ?_, ?_⟩
  · intro h0
    rw [generate_tokens, if_pos h0]
  · intro hb hu
    have hk : (keptTokens permB shuffle src storeBatchSize nPrompts).length = 0 := by
      by_cases hn : nPrompts = 0
      · subst hn
        rw [keptTokens, pulledBatches_zero]
        rfl
      · rw [hu, Nat.min_zero] at hmin
        rcases Nat.min_eq_zero_iff.mp hmin with h | h
        · exact absurd h hn
        · exact h
    have hnil : keptTokens permB shuffle src storeBatchSize nPrompts = [] :=
      List.length_eq_zero.mp hk
    rw [generate_tokens, if_neg (by omega), hnil]
    rfl
  · intro hb hu
    have hn : nPrompts ≠ 0 := by
      intro h0
      subst h0
      rw [pulledBatches_zero] at hu
      simp [uniqueCount, processBatch] at hu
    have hkpos : 0 < (keptTokens permB shuffle src storeBatchSize nPrompts).length := by
      have h1 : 0 < min nPrompts
          (uniqueCount (pulledBatches permB shuffle src storeBatchSize nPrompts)) :=
        lt_min (Nat.pos_of_ne_zero hn) hu
      rw [← hmin] at h1
      exact Nat.lt_of_lt_of_le h1 (Nat.min_le_right _ _)
    have hne : ¬ (keptTokens permB shuffle src storeBatchSize nPrompts).isEmpty = true := by
      intro h
      rw [List.isEmpty_iff.mp h] at hkpos
      exact Nat.lt_irrefl 0 hkpos
    refine ⟨(if shuffle then
        permF ((keptTokens permB shuffle src storeBatchSize nPrompts).take nPrompts)
      else (keptTokens permB shuffle src storeBatchSize nPrompts).take nPrompts),
      ?_, ?_⟩
    · rw [generate_tokens, if_neg (by omega), if_neg hne]
    · by_cases hs : shuffle = true
      · rw [if_pos hs, (hF _).length_eq, List.length_take]
        exact hmin
      · rw [if_neg hs, List.length_take]
        exact hmin

/-- Witness for C1 (amended) at the counterexample source: the batch size is
positive, at least one unique sequence is kept, and the corpus returned has
`min 4 u = 2` sequences. -/
theorem generate_tokens_length_eq_witness :
    ∃ ts, generate_tokens idPermB idPermF false c1Src 2 4 = Except.ok ts ∧
      ts.length = min 4 (uniqueCount (pulledBatches idPermB false c1Src 2 4)) :=
  (generate_tokens_length_eq idPermB idPermF false c1Src 2 4
    (fun l => List.Perm.refl l)).2.2 (by decide) (by decide)

/-! ### C7: the returned corpus is duplicate-free -/

/-- C7. For every streaming source (even one producing duplicate
sequences), every shuffle configuration and any behaviour of the two
`torch.randperm` permutation draws, every corpus `generate_tokens` returns
contains no two bit-identical sequences: a drawn sequence is kept only when
its exact content has not been seen before in the run. -/
theorem generate_tokens_nodup (permB : Nat → List (List Nat) → List (List Nat))
    (permF : List (List Nat) → List (List Nat)) (shuffle : Bool)
    (src : Nat → List (List Nat)) (storeBatchSize nPrompts : Nat)
    (hF : ∀ l, (permF l).Perm l) :
    ∀ ts, generate_tokens permB permF shuffle src storeBatchSize nPrompts =
      Except.ok ts → ts.Nodup := by
  intro ts hts
  have hinv : GenInv (genLoop nPrompts
      (pulledBatches permB shuffle src storeBatchSize nPrompts) ([], [])) :=
    genInv_genLoop nPrompts _ ([], []) ⟨List.nodup_nil, by simp⟩
  have htake : ((keptTokens permB shuffle src storeBatchSize nPrompts).take
      nPrompts).Nodup :=
    (List.take_sublist _ _).nodup hinv.1
  rw [generate_tokens] at hts
  split at hts
  · exact Except.noConfusion hts
  · split at hts
    · exact Except.noConfusion hts
    · injection hts with h
      subst h
      by_cases hs : shuffle = true
      · rw [if_pos hs]
        exact ((hF _).symm).nodup htake
      · rw [if_neg hs]
        exact htake

/-- Witness for C7: a source with duplicate draws, shuffling enabled, with
concrete (identity) permutation oracles; the returned corpus is duplicate-free. -/
theorem generate_tokens_nodup_witness :
    ∃ ts, generate_tokens idPermB idPermF true c1Src 2 4 = Except.ok ts ∧ ts.Nodup :=
  ⟨[[0, 0], [1, 1]], rfl,
    generate_tokens_nodup idPermB idPermF true c1Src 2 4
      (fun l => List.Perm.refl l) [[0, 0], [1, 1]] rfl⟩

/-! ## SequenceAugmenter: `add_prefix_suffix_to_tokens` -/

/-- Length of an optional prefix/suffix token list
(`len(self.cfg.prefix_tokens) if self.cfg.prefix_tokens else 0`). -/
def optLen (o : Option (List Nat)) : Nat :=
  match o with
  | some l => l.length
  | none => 0

/-- Model of `tokens.shape[1]` of the corpus tensor (every row has this length). -/
def origLen (tokens : List (List Nat)) : Nat :=
  match tokens with
  | [] => 0
  | r :: _ => r.length

/-- Model of `NeuronpediaRunner.add_prefix_suffix_to_tokens`. Exceptions become
`Except.error`: the `ValueError` when `keep_length <= 0`, and the final
`assert tokens.shape[1] == original_length`. `prependBos` is
`self.sae.cfg.prepend_bos`; Python truthiness of the token lists is
`some p` with `p ≠ []`, and `bos_tokens = tokens[:, 0]` is the head of each
original row. -/
def add_prefix_suffix_to_tokens (pre suf : Option (List Nat))
    (prependBos : Bool) (tokens : List (List Nat)) :
    Except String (List (List Nat)) :=
  if pre.isNone ∧ suf.isNone then Except.ok tokens
  else
    let keep : Int := (origLen tokens : Int) - optLen pre - optLen suf
    if keep ≤ 0 then
      Except.error "Prefix and suffix are too long for the given tokens."
    else
      let bosInt : Nat := if prependBos then 1 else 0
      let rows := tokens.map (fun r =>
        let trimmed := r.take (keep.toNat - bosInt)
        let withPre :=
          match pre with
          | some p =>
            if p ≠ [] then
              (if prependBos then r.headD 0 :: p else p) ++ trimmed
            else trimmed
          | none => trimmed
        match suf with
        | some s => if s ≠ [] then withPre ++ s else withPre
        | none => withPre)
      if rows.all (fun r => r.length = origLen tokens) then Except.ok rows
      else Except.error "assert tokens.shape[1] == original_length"

/-! ### C2: the length-preservation assert -/

/-- The slice of `NeuronpediaRunnerConfig` the validated behaviour depends
on. -/
structure RunnerConfig where
  use_transcoder : Bool := false
  use_skip_transcoder : Bool := false
  use_clt : Bool := false
  clt_layer_idx : Option Nat := none
  prefix_tokens : Option (List Nat) := none
  suffix_tokens : Option (List Nat) := none
  start_batch : Nat := 0
  end_batch : Option Nat := none
  n_features_at_a_time : Nat := 2
deriving DecidableEq

/-- The validation block at the top of `NeuronpediaRunner.__init__`
(the only checks performed at construction). -/
def runnerInitValidate (cfg : RunnerConfig) : Except String Unit :=
  if 1 < [cfg.use_transcoder, cfg.use_skip_transcoder, cfg.use_clt].count true then
    Except.error "Only one of --use-transcoder, --use-skip-transcoder, or --use-clt can be set."
  else if cfg.use_clt ∧ cfg.clt_layer_idx = none then
    Except.error "--clt-layer-idx must be specified when using --use-clt."
  else Except.ok ()

/-- Model of `self.cfg.end_batch is not None and feature_batch_count > self.cfg.end_batch`. -/
def afterEnd (endBatch : Option Nat) (i : Nat) : Bool :=
  match endBatch with
  | none => false
  | some m => decide (m < i)

/-- One iteration of the batch loop in `NeuronpediaRunner.run`, acting on the
state `(executed extraction calls, artifact files present)`; artifact files
`batch-{i}.json` are identified by the batch ordinal `i`. A batch is skipped
when its ordinal is before `start_batch`, after `end_batch`, or when its
artifact file already exists; otherwise extraction runs and the artifact is
written. -/
def batchStep (cfg : RunnerConfig) (st : List Nat × List Nat) (i : Nat) :
    List Nat × List Nat :=
  if i < cfg.start_batch then st
  else if afterEnd cfg.end_batch i then st
  else if i ∈ st.2 then st
  else (st.1 ++ [i], st.2 ++ [i])

/-- The batch loop of `NeuronpediaRunner.run` over a plan of `planLen`
batches, starting from the artifact files `fs0` already on disk. Returns the
ordinals on which extraction was invoked (in order) and the artifact files
present afterwards. -/
def batchLoop (cfg : RunnerConfig) (planLen : Nat) (fs0 : List Nat) :
    List Nat × List Nat :=
  (List.range planLen).foldl (batchStep cfg) ([], fs0)

/-- Observable trace of one `NeuronpediaRunner.run` invocation. `exitedEarly`
models the `exit()` call taken when `start_batch >= len(feature_idx)`;
`wroteSkippedRecord` models `record_skipped_features`; `corpusBuilt` models
`get_tokens`; `fatalError` holds a propagated exception. -/
structure RunTrace where
  exitedEarly : Bool
  wroteSkippedRecord : Bool
  corpusBuilt : Bool
  fatalError : Option String
  executed : List Nat
  artifacts : List Nat
deriving DecidableEq

/-- Model of `NeuronpediaRunner.run`: compute the plan with `get_feature_batches`;
terminate the process if `start_batch >= len(feature_idx)`; otherwise write
the skipped-feature record, build/load the token corpus, augment it with
`add_prefix_suffix_to_tokens` (a raised `ValueError`/`AssertionError` is
fatal before any batch runs), then iterate the batch loop. -/
def runSim (cfg : RunnerConfig) (dSae : Nat) (prependBos : Bool)
    (tokens : List (List Nat)) (fs0 : List Nat) : RunTrace :=
  let plan := get_feature_batches dSae cfg.n_features_at_a_time
  if plan.length ≤ cfg.start_batch then
    ⟨true, false, false, none, [], fs0⟩
  else
    match add_prefix_suffix_to_tokens cfg.prefix_tokens cfg.suffix_tokens
        prependBos tokens with
    | Except.error e => ⟨false, true, true, some e, [], fs0⟩
    | Except.ok _ =>
      let r := batchLoop cfg plan.length fs0
      ⟨false, true, true, none, r.1, r.2⟩

/-! ### Lemmas about the batch loop -/

/-- A batch ordinal inside the configured `[start_batch, end_batch]` window. -/
def inBoundsB (cfg : RunnerConfig) (i : Nat) : Bool :=
  !decide (i < cfg.start_batch) && !afterEnd cfg.end_batch i

theorem batchStep_eq (cfg : RunnerConfig) (st : List Nat × List Nat) (i : Nat) :
    batchStep cfg st i =
      if inBoundsB cfg i = true then
        (if i ∈ st.2 then st else (st.1 ++ [i], st.2 ++ [i]))
      else st := by
  rw [batchStep, inBoundsB]
  by_cases h1 : i < cfg.start_batch
  · simp [h1]
  · by_cases h2 : afterEnd cfg.end_batch i
    · simp [h1, h2]
    · simp [h1, h2]

theorem artifacts_mono (cfg : RunnerConfig) :
    ∀ (l : List Nat) (st : List Nat × List Nat) (x : Nat), x ∈ st.2 →
      x ∈ (l.foldl (batchStep cfg) st).2
  | [], _, _, hx => hx
  | a :: l, st, x, hx => by
    refine artifacts_mono cfg l (batchStep cfg st a) x ?_
    rw [batchStep_eq]
    split
    · split
      · exact hx
      · exact List.mem_append.mpr (Or.inl hx)
    · exact hx

theorem batch_covered (cfg : RunnerConfig) :
    ∀ (l : List Nat) (st : List Nat × List Nat) (i : Nat), i ∈ l →
      inBoundsB cfg i = true → i ∈ (l.foldl (batchStep cfg) st).2
  | [], _, _, hi, _ => absurd hi (List.not_mem_nil _)
  | a :: l, st, i, hi, hb => by
    rcases List.mem_cons.mp hi with rfl | hi
    · refine artifacts_mono cfg l (batchStep cfg st i) i ?_
      rw [batchStep_eq, if_pos hb]
      split
      · assumption
      · simp
    · exact batch_covered cfg l (batchStep cfg st a) i hi hb

theorem batch_loop_no_work (cfg : RunnerConfig) :
    ∀ (l : List Nat) (st : List Nat × List Nat),
      (∀ i ∈ l, inBoundsB cfg i = true → i ∈ st.2) →
      l.foldl (batchStep cfg) st = st
  | [], _, _ => rfl
  | a :: l, st, h => by
    have hstep : batchStep cfg st a = st := by
      rw [batchStep_eq]
      split
      · rename_i hb
        rw [if_pos (h a (List.mem_cons_self a l) hb)]
      · rfl
    rw [List.foldl_cons, hstep]
    exact batch_loop_no_work cfg l st
      (fun i hi => h i (List.mem_cons_of_mem a hi))

theorem batch_loop_growth (cfg : RunnerConfig) :
    ∀ (l : List Nat) (st : List Nat × List Nat),
      ∃ e : List Nat, (l.foldl (batchStep cfg) st).1 = st.1 ++ e ∧
        (l.foldl (batchStep cfg) st).2 = st.2 ++ e
  | [], st => ⟨[], by simp⟩
  | a :: l, st => by
    rw [List.foldl_cons, batchStep_eq]
    by_cases hb : inBoundsB cfg a = true
    · rw [if_pos hb]
      by_cases hmem : a ∈ st.2
      · rw [if_pos hmem]
        exact batch_loop_growth cfg l st
      · rw [if_neg hmem]
        rcases batch_loop_growth cfg l (st.1 ++ [a], st.2 ++ [a]) with ⟨e, he1, he2⟩
        refine ⟨a :: e, ?_, ?_⟩
        · rw [he1]
          simp
        · rw [he2]
          simp
    · rw [if_neg hb]
      exact batch_loop_growth cfg l st

theorem executed_in_bounds (cfg : RunnerConfig) :
    ∀ (l : List Nat) (st : List Nat × List Nat) (x : Nat),
      x ∈ (l.foldl (batchStep cfg) st).1 →
      x ∈ st.1 ∨ inBoundsB cfg x = true
  | [], _, _, hx => Or.inl hx
  | a :: l, st, x, hx => by
    rw [List.foldl_cons] at hx
    rcases executed_in_bounds cfg l (batchStep cfg st a) x hx with h | h
    · rw [batchStep_eq] at h
      by_cases hb : inBoundsB cfg a = true
      · rw [if_pos hb] at h
        by_cases hmem : a ∈ st.2
        · rw [if_pos hmem] at h
          exact Or.inl h
        · rw [if_neg hmem] at h
          rcases List.mem_append.mp h with h | h
          · exact Or.inl h
          · simp only [List.mem_singleton] at h
            subst h
            exact Or.inr hb
      · rw [if_neg hb] at h
        exact Or.inl h
    · exact Or.inr h

theorem batch_loop_fresh (cfg : RunnerConfig) :
    ∀ (l : List Nat) (st : List Nat × List Nat), l.Nodup →
      (∀ i ∈ l, i ∉ st.2) →
      (l.foldl (batchStep cfg) st).1 = st.1 ++ l.filter (inBoundsB cfg)
  | [], st, _, _ => by simp
  | a :: l, st, hnd, hfree => by
    rw [List.foldl_cons, List.filter_cons]
    have hndl : l.Nodup := (List.nodup_cons.mp hnd).2
    have hanl : a ∉ l := (List.nodup_cons.mp hnd).1
    by_cases hb : inBoundsB cfg a = true
    · have hstep : batchStep cfg st a = (st.1 ++ [a], st.2 ++ [a]) := by
        rw [batchStep_eq, if_pos hb,
          if_neg (hfree a (List.mem_cons_self a l))]
      rw [hstep, batch_loop_fresh cfg l _ hndl
        (fun i hi => by
          simp only [List.mem_append, List.mem_singleton, not_or]
          exact ⟨hfree i (List.mem_cons_of_mem a hi),
            fun hia => hanl (hia ▸ hi)⟩)]
      simp [hb]
    · have hstep : batchStep cfg st a = st := by
        rw [batchStep_eq, if_neg hb]
      rw [hstep, batch_loop_fresh cfg l st hndl
        (fun i hi => hfree i (List.mem_cons_of_mem a hi))]
      simp [hb]

/-! ### C5: idempotent resumption -/

/-- C5. Running the batch loop a second time over the same plan and
output directory, with no changes in between, invokes the feature-extraction
collaborator zero times and leaves the set of artifact files unchanged: every
batch whose artifact already exists at its designated path is skipped without
work and without touching the artifact. -/
theorem batch_loop_idempotent (cfg : RunnerConfig) (planLen : Nat)
    (fs0 : List Nat) :
    (batchLoop cfg planLen (batchLoop cfg planLen fs0).2).1 = [] ∧
      (batchLoop cfg planLen (batchLoop cfg planLen fs0).2).2 =
        (batchLoop cfg planLen fs0).2 := by
  have hdone : ∀ i ∈ List.range planLen, inBoundsB cfg i = true →
      i ∈ (batchLoop cfg planLen fs0).2 := by
    intro i hi hb
    rw [batchLoop]
    exact batch_covered cfg (List.range planLen) ([], fs0) i hi hb
  have h2 := batch_loop_no_work cfg (List.range planLen)
    (([] : List Nat), (batchLoop cfg planLen fs0).2) hdone
  refine ⟨?_, ?_⟩
  · show ((List.range planLen).foldl (batchStep cfg)
      ([], (batchLoop cfg planLen fs0).2)).1 = []
    rw [h2]
  · show ((List.range planLen).foldl (batchStep cfg)
      ([], (batchLoop cfg planLen fs0).2)).2 = (batchLoop cfg planLen fs0).2
    rw [h2]

/-! ### C6: start/end batch bounds -/

/-- C6. For every configuration with `start_batch = k` and inclusive
`end_batch = m`, the batch loop never invokes extraction on an ordinal below
`k` or above `m`; skipped batches write no artifact (the artifact files after
the loop are exactly the initial ones plus one per executed batch, in order);
and on a fresh output directory the executed ordinals are exactly the
in-window ordinals of the plan, in ascending plan order. -/
theorem batch_loop_start_end_bounds (cfg : RunnerConfig) (planLen : Nat)
    (fs0 : List Nat) :
    (∀ i ∈ (batchLoop cfg planLen fs0).1,
        cfg.start_batch ≤ i ∧ afterEnd cfg.end_batch i = false) ∧
      (batchLoop cfg planLen fs0).2 = fs0 ++ (batchLoop cfg planLen fs0).1 ∧
      (batchLoop cfg planLen []).1 =
        (List.range planLen).filter (inBoundsB cfg) := by
  refine ⟨?_, ?_, ?_⟩
  · intro i hi
    rcases executed_in_bounds cfg (List.range planLen) ([], fs0) i hi with h | h
    · exact absurd h (List.not_mem_nil i)
    · simp only [inBoundsB, Bool.and_eq_true, Bool.not_eq_true',
        decide_eq_false_iff_not, Bool.not_eq_true] at h
      exact ⟨Nat.le_of_not_lt h.1, h.2⟩
  · rcases batch_loop_growth cfg (List.range planLen) ([], fs0) with ⟨e, he1, he2⟩
    rw [batchLoop, he1, he2]
    simp
  · have h := batch_loop_fresh cfg (List.range planLen) ([], [])
      (List.nodup_range planLen) (fun i _ => List.not_mem_nil i)
    rw [batchLoop, h]
    simp

/-- The spec scenario for C6: `start_batch = 1`, `end_batch = 1`, 3-batch
plan. -/
def cfgScenario : RunnerConfig :=
  { start_batch := 1, end_batch := some 1 }

/-- Witness for C6: on the 3-batch scenario only batch ordinal 1 executes;
ordinals 0 and 2 are skipped. -/
theorem batch_loop_start_end_bounds_witness :
    (batchLoop cfgScenario 3 []).1 = (List.range 3).filter (inBoundsB cfgScenario) ∧
      (List.range 3).filter (inBoundsB cfgScenario) = [1] :=
  ⟨(batch_loop_start_end_bounds cfgScenario 3 []).2.2, by decide⟩

/-! ### C10: early process exit when start_batch is past the plan -/

/-- C10. If `start_batch` is at least the number of batches in the
computed plan, `run()` calls `exit()` immediately after computing the plan:
the skipped-feature record is not written, the token corpus is neither built
nor loaded, and no batch is executed or skipped (the artifact set is left as
it was). -/
theorem run_early_exit (cfg : RunnerConfig) (dSae : Nat) (prependBos : Bool)
    (tokens : List (List Nat)) (fs0 : List Nat)
    (h : (get_feature_batches dSae cfg.n_features_at_a_time).length ≤
      cfg.start_batch) :
    runSim cfg dSae prependBos tokens fs0 = ⟨true, false, false, none, [], fs0⟩ := by
  rw [runSim]
  exact if_pos h

/-- A configuration whose `start_batch` is far past any plan for `d_sae = 10`. -/
def cfgPastPlan : RunnerConfig :=
  { start_batch := 99 }

/-- Witness for C10. -/
theorem run_early_exit_witness :
    runSim cfgPastPlan 10 false [[1, 2]] [0] = ⟨true, false, false, none, [], [0]⟩ :=
  run_early_exit cfgPastPlan 10 false [[1, 2]] [0] (by decide)

/-! ### C9: when configuration errors are detected -/

/-- A configuration with a prefix and suffix too long for a 3-token corpus,
but with no encoder-family flag conflict. -/
def cfgLate : RunnerConfig :=
  { prefix_tokens := some [1, 2, 3], suffix_tokens := some [4, 5] }

/-- C9, counterexample. The prefix-plus-suffix configuration error
(`keep_length <= 0`) is not detected at construction of the runner:
`__init__`'s validation accepts `cfgLate`, and the error surfaces only inside
`run()`, when `add_prefix_suffix_to_tokens` raises after the plan was
computed, the skipped-feature record written and the token corpus built. -/
theorem config_error_not_eager :
    runnerInitValidate cfgLate = Except.ok () ∧
      (runSim cfgLate 4 false [[9, 9, 9]] []).wroteSkippedRecord = true ∧
      (runSim cfgLate 4 false [[9, 9, 9]] []).corpusBuilt = true ∧
      (runSim cfgLate 4 false [[9, 9, 9]] []).fatalError =
        some "Prefix and suffix are too long for the given tokens." := by
  refine ⟨rfl, ?_, ?_, ?_⟩ <;> rfl

/-- C9, amended. The conflicting encoder-family-flags error is detected
eagerly at construction (`__init__` raises before anything else runs); the
prefix-plus-suffix error (`keep_length <= 0`) is detected only during `run()`,
when the corpus is augmented — still before any batch executes, so the batch
loop never starts and no artifact is touched; both errors are fatal. -/
theorem config_errors_fatal :
    (∀ cfg : RunnerConfig,
        1 < [cfg.use_transcoder, cfg.use_skip_transcoder, cfg.use_clt].count true →
        runnerInitValidate cfg =
          Except.error "Only one of --use-transcoder, --use-skip-transcoder, or --use-clt can be set.") ∧
      (∀ (pre suf : Option (List Nat)) (prependBos : Bool)
          (tokens : List (List Nat)),
        ¬ (pre.isNone ∧ suf.isNone) →
        (origLen tokens : Int) - optLen pre - optLen suf ≤ 0 →
        add_prefix_suffix_to_tokens pre suf prependBos tokens =
          Except.error "Prefix and suffix are too long for the given tokens.") ∧
      (∀ (cfg : RunnerConfig) (dSae : Nat) (prependBos : Bool)
          (tokens : List (List Nat)) (fs0 : List Nat),
        ¬ (cfg.prefix_tokens.isNone ∧ cfg.suffix_tokens.isNone) →
        (origLen tokens : Int) - optLen cfg.prefix_tokens -
            optLen cfg.suffix_tokens ≤ 0 →
        (runSim cfg dSae prependBos tokens fs0).executed = [] ∧
          (runSim cfg dSae prependBos tokens fs0).artifacts = fs0) := by
  have haug : ∀ (pre suf : Option (List Nat)) (prependBos : Bool)
      (tokens : List (List Nat)),
      ¬ (pre.isNone ∧ suf.isNone) →
      (origLen tokens : Int) - optLen pre - optLen suf ≤ 0 →
      add_prefix_suffix_to_tokens pre suf prependBos tokens =
        Except.error "Prefix and suffix are too long for the given tokens." := by
    intro pre suf prependBos tokens h1 h2
    rw [add_prefix_suffix_to_tokens, if_neg h1, if_pos h2]
  refine ⟨?_, haug, ?_⟩
  · intro cfg h
    rw [runnerInitValidate, if_pos h]
  · intro cfg dSae prependBos tokens fs0 h1 h2
    rw [runSim]
    split
    · exact ⟨rfl, rfl⟩
    · rw [haug cfg.prefix_tokens cfg.suffix_tokens prependBos tokens h1 h2]
      exact ⟨rfl, rfl⟩

/-- A configuration with two encoder-family flags set. -/
def cfgTwoFlags : RunnerConfig :=
  { use_transcoder := true, use_clt := true, clt_layer_idx := some 0 }

/-- Witness for C9 (amended): the flag conflict is rejected at construction,
and the too-long prefix/suffix configuration aborts `run()` with no batch
executed and the artifact set untouched. -/
theorem config_errors_fatal_witness :
    runnerInitValidate cfgTwoFlags =
        Except.error "Only one of --use-transcoder, --use-skip-transcoder, or --use-clt can be set." ∧
      (runSim cfgLate 4 false [[9, 9, 9]] [7]).executed = [] ∧
      (runSim cfgLate 4 false [[9, 9, 9]] [7]).artifacts = [7] :=
  ⟨config_errors_fatal.1 cfgTwoFlags (by decide),
    config_errors_fatal.2.2 cfgLate 4 false [[9, 9, 9]] [7] (by decide) (by decide)⟩

/-! ## VocabularyNormalizer: `get_vocab_dict` -/

/-- Python `s.replace(pat, rep)` on `List Char`: scan left to right, replace
every non-overlapping occurrence. The fuel (initialised to the string length,
an upper bound on the number of scan steps since every step consumes at least
one character) makes the recursion structural; all patterns in the anomaly
table are non-empty, so the `pat = []` behaviour is never exercised. -/
def replaceAllAux (pat rep : List Char) : Nat → List Char → List Char
  | 0, s => s
  | _ + 1, [] => []
  | fuel + 1, c :: rest =>
    if pat ≠ [] ∧ pat.isPrefixOf (c :: rest) then
      rep ++ replaceAllAux pat rep fuel ((c :: rest).drop pat.length)
    else
      c :: replaceAllAux pat rep fuel rest

/-- Model of `modified_key.replace(anomaly, HTML_ANOMALIES[anomaly])`. -/
def replaceAll (pat rep s : List Char) : List Char :=
  replaceAllAux pat rep s.length s

/-- The module-level `HTML_ANOMALIES` table, in Python iteration order, with
the entries the Python parser actually produces: the third entry's value is
the triple-quoted string spanning the source lines of the two curly-quote
anomalies (their intended `“`/`”` replacement characters were lost, leaving
bare `\x22` quotes, so `\x22\x22\x22` opens a triple-quoted string and the
key `"âĢĿ"` is swallowed into its value rather than becoming a key). -/
def HTML_ANOMALIES : List (List Char × List Char) :=
  [("âĢĶ".toList, "—".toList),
   ("âĢĵ".toList, "–".toList),
   ("âĢľ".toList, ",\n    \"âĢĿ\": ".toList),
   ("âĢĺ".toList, "\x27".toList),
   ("âĢĻ".toList, "\x27".toList),
   ("âĢĭ".toList, " ".toList),
   ("Ġ".toList, " ".toList),
   ("Ċ".toList, "\n".toList),
   ("ĉ".toList, "\t".toList)]

/-- The inner `for anomaly in HTML_ANOMALIES` loop of `get_vocab_dict`:
apply every substitution of the table, in table order. -/
def normalizeToken (s : List Char) : List Char :=
  HTML_ANOMALIES.foldl (fun acc p => replaceAll p.1 p.2 acc) s

/-- The module-level `OUT_OF_RANGE_TOKEN` sentinel. -/
def OUT_OF_RANGE_TOKEN : List Char :=
  "<|outofrange|>".toList

/-- Model of `d[k] = v` on a Python dict modelled as an insertion-ordered association
list: overwrite in place if the key exists, append otherwise. -/
def dictInsert (d : List (Nat × List Char)) (k : Nat) (v : List Char) :
    List (Nat × List Char) :=
  if d.any (fun p => p.1 == k) then
    d.map (fun p => if p.1 == k then (k, v) else p)
  else d ++ [(k, v)]

/-- The first loop of `get_vocab_dict`: rewrite every raw token string with
the anomaly table and invert the string→id table into an id-keyed dict
(`new_vocab_dict[v] = modified_key`, later entries overwriting earlier
ones). -/
def invertVocab (raw : List (List Char × Nat)) : List (Nat × List Char) :=
  raw.foldl (fun d p => dictInsert d p.2 (normalizeToken p.1)) []

/-- Model of `NeuronpediaRunner.get_vocab_dict`: invert the normalized table, then pad
ids `len(vocab_dict) .. d_vocab - 1` with the out-of-range sentinel (the
`range` start is the dict size after inversion, evaluated once). -/
def get_vocab_dict (raw : List (List Char × Nat)) (dVocab : Nat) :
    List (Nat × List Char) :=
  (List.range' (invertVocab raw).length (dVocab - (invertVocab raw).length)).foldl
    (fun d i => dictInsert d i OUT_OF_RANGE_TOKEN) (invertVocab raw)

/-- Lookup by token id in the resulting table. -/
def lookupId (d : List (Nat × List Char)) (k : Nat) : Option (List Char) :=
  (d.find? (fun p => p.1 == k)).map Prod.snd

/-! ### Lemmas about `dictInsert` and the two `get_vocab_dict` loops -/

theorem dictInsert_not_mem (d : List (Nat × List Char)) (k : Nat)
    (v : List Char) (h : ∀ p ∈ d, p.1 ≠ k) :
    dictInsert d k v = d ++ [(k, v)] := by
  have hc : ¬ d.any (fun p => p.1 == k) = true := by
    simp only [List.any_eq_true, beq_iff_eq, not_exists, not_and]
    exact h
  rw [dictInsert, if_neg hc]

theorem invert_foldl :
    ∀ (raw : List (List Char × Nat)) (acc : List (Nat × List Char)),
      (raw.map Prod.snd).Nodup →
      (∀ p ∈ raw, ∀ q ∈ acc, q.1 ≠ p.2) →
      raw.foldl (fun d p => dictInsert d p.2 (normalizeToken p.1)) acc =
        acc ++ raw.map (fun p => (p.2, normalizeToken p.1))
  | [], acc, _, _ => by simp
  | p :: raw, acc, hnd, hfree => by
    have hnd2 : (p.2 :: raw.map Prod.snd).Nodup := by
      rw [List.map_cons] at hnd
      exact hnd
    have hnotin : p.2 ∉ raw.map Prod.snd := (List.nodup_cons.mp hnd2).1
    have hndtail : (raw.map Prod.snd).Nodup := (List.nodup_cons.mp hnd2).2
    have hfree2 : ∀ r ∈ raw, ∀ q ∈ acc ++ [(p.2, normalizeToken p.1)], q.1 ≠ r.2 := by
      intro r hr q hq
      rcases List.mem_append.mp hq with hq | hq
      · exact hfree r (List.mem_cons_of_mem p hr) q hq
      · simp only [List.mem_singleton] at hq
        subst hq
        intro hcontra
        have h2 : p.2 = r.2 := hcontra
        exact hnotin (h2 ▸ List.mem_map_of_mem Prod.snd hr)
    rw [List.foldl_cons,
      dictInsert_not_mem acc p.2 (normalizeToken p.1)
        (fun q hq => hfree p (List.mem_cons_self p raw) q hq),
      invert_foldl raw (acc ++ [(p.2, normalizeToken p.1)]) hndtail hfree2]
    simp

theorem pad_foldl :
    ∀ (cnt start : Nat) (d : List (Nat × List Char)),
      (∀ q ∈ d, q.1 < start) →
      (List.range' start cnt).foldl
          (fun d i => dictInsert d i OUT_OF_RANGE_TOKEN) d =
        d ++ (List.range' start cnt).map (fun i => (i, OUT_OF_RANGE_TOKEN))
  | 0, _, d, _ => by simp
  | cnt + 1, start, d, h => by
    have hkeys : ∀ q ∈ d ++ [(start, OUT_OF_RANGE_TOKEN)], q.1 < start + 1 := by
      intro q hq
      rcases List.mem_append.mp hq with hq | hq
      · exact Nat.lt_succ_of_lt (h q hq)
      · simp only [List.mem_singleton] at hq
        subst hq
        exact Nat.lt_succ_self start
    rw [List.range'_succ, List.foldl_cons, List.map_cons,
      dictInsert_not_mem d start OUT_OF_RANGE_TOKEN
        (fun q hq => Nat.ne_of_lt (h q hq)),
      pad_foldl cnt (start + 1) (d ++ [(start, OUT_OF_RANGE_TOKEN)]) hkeys]
    simp

theorem find_key_nodup :
    ∀ (l : List (Nat × List Char)), (l.map Prod.fst).Nodup →
      ∀ (k : Nat) (v : List Char), (k, v) ∈ l →
        l.find? (fun p => p.1 == k) = some (k, v)
  | [], _, _, v, h => absurd h (List.not_mem_nil _)
  | q :: l, hnd, k, v, h => by
    have hnd2 : (q.1 :: l.map Prod.fst).Nodup := by
      rw [List.map_cons] at hnd
      exact hnd
    have hq : q.1 ∉ l.map Prod.fst := (List.nodup_cons.mp hnd2).1
    have hndtail : (l.map Prod.fst).Nodup := (List.nodup_cons.mp hnd2).2
    by_cases hk : q.1 = k
    · have hqv : q = (k, v) := by
        rcases List.mem_cons.mp h with h | h
        · exact h.symm
        · exact absurd (hk ▸ List.mem_map_of_mem Prod.fst h) hq
      rw [List.find?_cons_of_pos _ (by simp [hk]), hqv]
    · have hmem : (k, v) ∈ l := by
        rcases List.mem_cons.mp h with h | h
        · exact absurd (congrArg Prod.fst h.symm) hk
        · exact h
      rw [List.find?_cons_of_neg _ (by simp [hk]),
        find_key_nodup l hndtail k v hmem]

/-! ### C8: the normalized, padded vocabulary table -/

/-- C8, counterexample. A raw tokenizer table whose ids are not the dense
range `[0, len)`: `{"a": 0, "b": 5}` with `d_vocab = 6`. The padding loop
runs over `range(2, 6)`, so id `1` never receives an entry (the table ends up
with 5 entries, not 6) and the genuine entry for id `5` is overwritten with
the out-of-range sentinel instead of keeping its normalized string. -/
def rawSparse : List (List Char × Nat) :=
  [("a".toList, 0), ("b".toList, 5)]

/-- C8, counterexample theorem. On `rawSparse` with `d_vocab = 6` the
returned table has 5 entries rather than `d_vocab`, id `1` has no entry at
all, and id `5` — present in the raw table — maps to the out-of-range
sentinel rather than to its string. -/
theorem get_vocab_dict_counterexample :
    (get_vocab_dict rawSparse 6).length = 5 ∧
      lookupId (get_vocab_dict rawSparse 6) 1 = none ∧
      lookupId (get_vocab_dict rawSparse 6) 5 = some OUT_OF_RANGE_TOKEN ∧
      normalizeToken "b".toList ≠ OUT_OF_RANGE_TOKEN := by
  refine ⟨by decide, by decide, by decide, by decide⟩

/-- C8, amended. Whenever the raw tokenizer table's ids are exactly the
dense range `[0, len)` (pairwise distinct, every id below the table size, and
every id below the table size present) and the table is no larger than
`d_vocab`, the table returned by `get_vocab_dict` has exactly `d_vocab`
entries, one for every id in `[0, d_vocab)`; every id present in the raw
table maps to its string with each known anomalous byte-sequence replaced;
and every id in `[0, d_vocab)` with no source entry maps to the out-of-range
sentinel string. -/
theorem get_vocab_dict_dense (raw : List (List Char × Nat)) (dVocab : Nat)
    (hnd : (raw.map Prod.snd).Nodup)
    (hlt : ∀ p ∈ raw, p.2 < raw.length)
    (hcover : ∀ v < raw.length, v ∈ raw.map Prod.snd)
    (hle : raw.length ≤ dVocab) :
    (get_vocab_dict raw dVocab).length = dVocab ∧
      (∀ p ∈ raw,
        lookupId (get_vocab_dict raw dVocab) p.2 = some (normalizeToken p.1)) ∧
      (∀ i, raw.length ≤ i → i < dVocab →
        lookupId (get_vocab_dict raw dVocab) i = some OUT_OF_RANGE_TOKEN) ∧
      (∀ i < dVocab, (lookupId (get_vocab_dict raw dVocab) i).isSome = true) := by
  have hinv : invertVocab raw = raw.map (fun p => (p.2, normalizeToken p.1)) := by
    rw [invertVocab, invert_foldl raw [] hnd
      (fun p _ q hq => absurd hq (List.not_mem_nil q))]
    simp
  have hilen : (invertVocab raw).length = raw.length := by
    rw [hinv, List.length_map]
  have hkeys : ∀ q ∈ raw.map (fun p => (p.2, normalizeToken p.1)),
      q.1 < raw.length := by
    intro q hq
    rcases List.mem_map.mp hq with ⟨p, hp, rfl⟩
    exact hlt p hp
  have hmain : get_vocab_dict raw dVocab =
      raw.map (fun p => (p.2, normalizeToken p.1)) ++
        (List.range' raw.length (dVocab - raw.length)).map
          (fun i => (i, OUT_OF_RANGE_TOKEN)) := by
    rw [get_vocab_dict, hilen, hinv,
      pad_foldl (dVocab - raw.length) raw.length _ hkeys]
  have hfstinv : ((raw.map (fun p => (p.2, normalizeToken p.1))).map
      Prod.fst).Nodup := by
    have heq : (raw.map (fun p => (p.2, normalizeToken p.1))).map Prod.fst =
        raw.map Prod.snd := by
      rw [List.map_map]
      rfl
    rw [heq]
    exact hnd
  have hfstpad : (((List.range' raw.length (dVocab - raw.length)).map
      (fun i => (i, OUT_OF_RANGE_TOKEN))).map Prod.fst).Nodup := by
    have heq : ((List.range' raw.length (dVocab - raw.length)).map
        (fun i => (i, OUT_OF_RANGE_TOKEN))).map Prod.fst =
          List.range' raw.length (dVocab - raw.length) := by
      rw [List.map_map,
        show (Prod.fst ∘ fun i : Nat => (i, OUT_OF_RANGE_TOKEN)) = id from rfl,
        List.map_id]
    rw [heq]
    exact List.nodup_range' _ _
  have hfound : ∀ p ∈ raw,
      lookupId (get_vocab_dict raw dVocab) p.2 = some (normalizeToken p.1) := by
    intro p hp
    have h1 : (raw.map (fun p => (p.2, normalizeToken p.1))).find?
        (fun q => q.1 == p.2) = some (p.2, normalizeToken p.1) :=
      find_key_nodup _ hfstinv p.2 (normalizeToken p.1)
        (List.mem_map_of_mem (fun p => (p.2, normalizeToken p.1)) hp)
    rw [lookupId, hmain, List.find?_append, h1, Option.or_some]
    simp only [Option.map_some']
  have hpadded : ∀ i, raw.length ≤ i → i < dVocab →
      lookupId (get_vocab_dict raw dVocab) i = some OUT_OF_RANGE_TOKEN := by
    intro i hge hltv
    have h1 : (raw.map (fun p => (p.2, normalizeToken p.1))).find?
        (fun q => q.1 == i) = none := by
      rw [List.find?_eq_none]
      intro q hq
      have := hkeys q hq
      simp only [beq_iff_eq]
      omega
    have h2 : ((List.range' raw.length (dVocab - raw.length)).map
        (fun i => (i, OUT_OF_RANGE_TOKEN))).find? (fun q => q.1 == i) =
          some (i, OUT_OF_RANGE_TOKEN) :=
      find_key_nodup _ hfstpad i OUT_OF_RANGE_TOKEN
        (List.mem_map_of_mem (fun i => (i, OUT_OF_RANGE_TOKEN))
          (List.mem_range'_1.mpr ⟨hge, by omega⟩))
    rw [lookupId, hmain, List.find?_append, h1, Option.none_or, h2]
    simp only [Option.map_some']
  refine ⟨?_, hfound, hpadded, ?_⟩
  · rw [hmain]
    simp only [List.length_append, List.length_map, List.length_range']
    omega
  · intro i hi
    by_cases hlo : i < raw.length
    · rcases List.mem_map.mp (hcover i hlo) with ⟨p, hp, rfl⟩
      rw [hfound p hp]
      exact Option.isSome_some
    · rw [hpadded i (Nat.le_of_not_lt hlo) hi]
      exact Option.isSome_some

/-- A dense two-entry raw table with ids out of positional order. -/
def rawDense : List (List Char × Nat) :=
  [("a".toList, 1), ("b".toList, 0)]

/-- Witness for C8 (amended) on a concrete dense raw table with
`d_vocab = 4`. -/
theorem get_vocab_dict_dense_witness :
    (get_vocab_dict rawDense 4).length = 4 ∧
      lookupId (get_vocab_dict rawDense 4) 1 = some (normalizeToken "a".toList) ∧
      lookupId (get_vocab_dict rawDense 4) 3 = some OUT_OF_RANGE_TOKEN :=
  have h := get_vocab_dict_dense rawDense 4 (by decide)
    (by decide) (by decide) (by decide)
  ⟨h.1, h.2.1 ("a".toList, 1) (by decide), h.2.2.1 3 (by decide) (by decide)⟩

end SAEDashboard
